import Mathlib

/-!
# A verification model of the SLON codec (`src/rust/src/lib.rs`)

The source is a Rust library exposing `parse : &str -> Result<Value, Error>`
and `stringify : &Value -> String` for the SLON notation.  This file embeds
the library shallowly:

* Rust strings are modelled at both of their observation levels: as UTF-8
  byte sequences (`List Nat`, each entry < 256) on the wire, and as
  sequences of Unicode code points (`List Nat`) once decoded.  The scanner
  in the source works on `input.as_bytes()`, so the decoder here consumes a
  byte list; `String` payloads inside `Value` are code-point lists.
* The parser's cursor (`struct Parser { input, len, pos }`) is modelled by
  `PState`, holding the number of consumed bytes (`= self.pos`) and the
  remaining byte list (`= &input[pos..]`).  The source only ever looks at
  `input[pos..]` (peek, slices from `pos`, windows `pos..pos+k`), so the
  two views are observationally identical.
* `f64` is modelled by `F64`: a finite value carries the exact rational
  value of the numeric literal; the model keeps track of where the source
  would produce a non-finite double (overflow past the IEEE-754 binary64
  overflow threshold `2^1024 - 2^970`, which is exact for round-to-nearest)
  and where `is_finite` would reject.  Rounding of a finite literal to the
  nearest double is abstracted away: a finite number is represented by the
  exact rational of its text.
* Rust panics (`unwrap` on `from_utf8` or on `peek`) are modelled by the
  distinguished outcome `PRes.panic`; the fuel used to drive the recursive
  descent yields `PRes.nofuel` when exhausted (the top-level entry point
  supplies enough fuel for any input).

Byte values are written as decimal code points; a comment gives the
character.
-/

namespace Slon

set_option maxRecDepth 8000

/-- `fn is_delimiter(ch: u8) -> bool` (lib.rs:314): `:`(58) `,`(44) `(`(40)
`)`(41) `[`(91) `]`(93) `|`(124). The same predicate is reused at character
level by `format_key` since all delimiters are ASCII. -/
def isDelimiter (c : Nat) : Bool :=
  c == 58 || c == 44 || c == 40 || c == 41 || c == 91 || c == 93 || c == 124

/-- `fn is_whitespace(ch: u8) -> bool` (lib.rs:318): space(32) tab(9)
CR(13) LF(10). -/
def isWs (c : Nat) : Bool :=
  c == 32 || c == 9 || c == 13 || c == 10

/-- The Unicode `White_Space` code points: the set recognised by Rust's
`char::is_whitespace`, used by the source through `str::trim` in
`parse_unquoted_string` (lib.rs:239) and `char::is_whitespace` in
`format_key` (lib.rs:356). -/
def isUnicodeWs (c : Nat) : Bool :=
  c == 9 || c == 10 || c == 11 || c == 12 || c == 13 || c == 32 ||
  c == 133 || c == 160 || c == 5760 || (8192 ≤ c && c ≤ 8202) ||
  c == 8232 || c == 8233 || c == 8239 || c == 8287 || c == 12288

/-- `str::trim`: drop Unicode whitespace from both ends of a code-point
sequence. -/
def rustTrim (s : List Nat) : List Nat :=
  ((s.dropWhile (fun c => isUnicodeWs c)).reverse.dropWhile
    (fun c => isUnicodeWs c)).reverse

/-- A continuation byte `0x80..=0xBF` of a UTF-8 sequence. -/
def utf8Cont (b : Nat) : Bool := 128 ≤ b && b ≤ 191

/-- One step of UTF-8 decoding: given the lead byte `b` and the bytes
after it, produce the code point and the bytes after the whole sequence,
or `none` on malformed input (invalid lead byte, truncated or non-minimal
sequence, surrogate, value above `0x10FFFF` — exactly the sequences
`std::str::from_utf8` rejects). -/
def utf8Step (b : Nat) (rest : List Nat) : Option (Nat × List Nat) :=
  if b < 128 then some (b, rest)
  else if b < 194 then none
  else if b < 224 then
    match rest with
    | c1 :: rest2 =>
      if utf8Cont c1 then some ((b - 192) * 64 + (c1 - 128), rest2) else none
    | [] => none
  else if b < 240 then
    match rest with
    | c1 :: c2 :: rest2 =>
      if (if b == 224 then 160 ≤ c1 && c1 ≤ 191
          else if b == 237 then 128 ≤ c1 && c1 ≤ 159
          else utf8Cont c1) && utf8Cont c2 then
        some ((b - 224) * 4096 + (c1 - 128) * 64 + (c2 - 128), rest2)
      else none
    | _ => none
  else if b < 245 then
    match rest with
    | c1 :: c2 :: c3 :: rest2 =>
      if (if b == 240 then 144 ≤ c1 && c1 ≤ 191
          else if b == 244 then 128 ≤ c1 && c1 ≤ 143
          else utf8Cont c1) && utf8Cont c2 && utf8Cont c3 then
        some ((b - 240) * 262144 + (c1 - 128) * 4096 + (c2 - 128) * 64 +
          (c3 - 128), rest2)
      else none
    | _ => none
  else none

/-- Fuel-driven UTF-8 decoding loop (each step consumes at least the lead
byte, so fuel `= length` always suffices). -/
def utf8DecodeF : Nat → List Nat → Option (List Nat)
  | _, [] => some []
  | 0, _ :: _ => none
  | fuel+1, b :: rest =>
    match utf8Step b rest with
    | none => none
    | some cr => (utf8DecodeF fuel cr.2).map (fun cs => cr.1 :: cs)

/-- `std::str::from_utf8` followed by iterating `chars()`: decode a byte
list as UTF-8 into code points, `none` exactly when the bytes are not
valid UTF-8. -/
def utf8Decode (l : List Nat) : Option (List Nat) := utf8DecodeF l.length l

/-- UTF-8 encoding of one Unicode code point. -/
def utf8EncodeChar (c : Nat) : List Nat :=
  if c < 128 then [c]
  else if c < 2048 then [192 + c / 64, 128 + c % 64]
  else if c < 65536 then [224 + c / 4096, 128 + (c / 64) % 64, 128 + c % 64]
  else [240 + c / 262144, 128 + (c / 4096) % 64, 128 + (c / 64) % 64, 128 + c % 64]

/-- UTF-8 encoding of a code-point sequence (how a Rust `String` exposes
its bytes). -/
def utf8EncodeStr (s : List Nat) : List Nat := (s.map utf8EncodeChar).flatten

/-- Helper: bytes of an ASCII/Unicode Lean string literal, as Rust sees
them (`str::as_bytes`, i.e. UTF-8). -/
def strUtf8 (s : String) : List Nat := utf8EncodeStr (s.data.map Char.toNat)

/-- The IEEE-754 binary64 overflow threshold `2^1024 - 2^970` as an integer
literal (round-to-nearest-even maps an exact value `v` to an infinity
exactly when `|v|` reaches this bound). -/
def f64MaxNat : Nat := 179769313486231580793728971405303415079934132710037826936173778980444968292764750946649017977587207096330286416692887910946555547851940402630657488671505820681908902000708383676273854845817711531764475730270069855571366959622842914819860834936475292719074168444365510704342711559699508093042880177904174497792

/-- The overflow threshold as a rational. -/
def f64Max : ℚ := mkRat (Int.ofNat f64MaxNat) 1

/-- Model of `f64`: a finite double is identified with the exact rational
value of the decimal literal it came from (rounding to the nearest double
is abstracted away); the non-finite values keep their sign/NaN identity. -/
inductive F64 where
  | finite (q : ℚ)
  | inf (negative : Bool)
  | nan
deriving DecidableEq

/-- Model of `chrono::DateTime<Utc>` restricted to what the codec can
produce: a calendar date-time at millisecond precision. -/
structure SDate where
  year : Nat
  month : Nat
  day : Nat
  hour : Nat
  minute : Nat
  second : Nat
  milli : Nat
deriving DecidableEq

/-- `enum Value` (lib.rs:4): `Null`, `Bool`, `Number(f64)`, `String`,
`Array(Vec<Value>)`, `Object(BTreeMap<String, Value>)`, `Date`.  String
payloads are code-point sequences; an `Object` is a key-sorted association
list (the observable content of a `BTreeMap` ascending iteration). -/
inductive Value where
  | null
  | bool (b : Bool)
  | num (x : F64)
  | str (s : List Nat)
  | arr (items : List Value)
  | obj (entries : List (List Nat × Value))
  | date (d : SDate)

/-- Lexicographic order on key code-point sequences.  `BTreeMap<String, _>`
orders keys by `Ord for String`, i.e. lexicographic byte order of UTF-8,
which coincides with lexicographic code-point order. -/
def keyLtB : List Nat → List Nat → Bool
  | [], [] => false
  | [], _ :: _ => true
  | _ :: _, [] => false
  | a :: as', b :: bs => if a < b then true else if a == b then keyLtB as' bs else false

/-- `BTreeMap::insert` observed on the ascending-iteration list: place the
new pair at its ordered position, overwriting an equal key. -/
def mapInsert (k : List Nat) (v : Value) :
    List (List Nat × Value) → List (List Nat × Value)
  | [] => [(k, v)]
  | (k', v') :: rest =>
    if keyLtB k k' then (k, v) :: (k', v') :: rest
    else if k = k' then (k, v) :: rest
    else (k', v') :: mapInsert k v rest

/-- `struct Error { message, position }` (lib.rs:16). -/
structure PError where
  message : String
  position : Nat
deriving DecidableEq

/-- The parser cursor (lib.rs:44): `consumed = self.pos` and
`rest = &self.input[self.pos..]`. -/
structure PState where
  consumed : Nat
  rest : List Nat
deriving DecidableEq

/-- Outcome of one parsing step: success with the advanced cursor, a
positioned error, a Rust panic (a failed `unwrap`), or fuel exhaustion of
the model's recursion bound (never reached from the entry point). -/
inductive PRes (α : Type) where
  | ok (a : α) (s : PState)
  | err (e : PError)
  | panic
  | nofuel

/-- The `?` operator on `Result` plus panic/fuel propagation. -/
def PRes.bind : PRes α → (α → PState → PRes β) → PRes β
  | .ok a s, f => f a s
  | .err e, _ => .err e
  | .panic, _ => .panic
  | .nofuel, _ => .nofuel

/-- `fn peek(&self) -> Option<u8>` (lib.rs:63). -/
def PState.peek (s : PState) : Option Nat := s.rest.head?

/-- `fn advance(&mut self, count)` (lib.rs:71). -/
def PState.advance (s : PState) (n : Nat) : PState :=
  ⟨s.consumed + n, s.rest.drop n⟩

/-- `fn error(&self, message)` (lib.rs:306): an error at the current byte
offset. -/
def PState.mkErr (s : PState) (message : String) : PError :=
  ⟨message, s.consumed⟩

/-- `fn skip_whitespace(&mut self)` (lib.rs:75). -/
def PState.skipWs (s : PState) : PState :=
  ⟨s.consumed + (s.rest.takeWhile (fun b => isWs b)).length,
    s.rest.dropWhile (fun b => isWs b)⟩

/-- `fn parse_unquoted_string(&mut self)` (lib.rs:230): consume a maximal
run of non-delimiter non-whitespace bytes, decode it as UTF-8 (the source
`unwrap`s, hence the panic branch), trim Unicode whitespace, and reject an
empty result. -/
def parseUnquotedString (s : PState) : PRes (List Nat) :=
  let tok := s.rest.takeWhile (fun b => !(isDelimiter b || isWs b))
  let s' := s.advance tok.length
  match utf8Decode tok with
  | none => .panic
  | some cs =>
    let trimmed := rustTrim cs
    if trimmed.isEmpty then .err (s'.mkErr "Empty string value")
    else .ok trimmed s'

/-- `char::to_digit(16)`: hex digit value of a code point. -/
def hexVal (c : Nat) : Option Nat :=
  if 48 ≤ c && c ≤ 57 then some (c - 48)
  else if 97 ≤ c && c ≤ 102 then some (c - 87)
  else if 65 ≤ c && c ≤ 70 then some (c - 55)
  else none

/-- One step of `from_str_radix`'s accumulation loop: multiply by the
radix and add the next digit, failing on a non-digit or on `u16`
overflow. -/
def hexAccum (acc : Option Nat) (c : Nat) : Option Nat :=
  match acc, hexVal c with
  | some a, some d => if a * 16 + d ≤ 65535 then some (a * 16 + d) else none
  | _, _ => none

/-- `u16::from_str_radix(s, 16)` on a code-point sequence: an optional
leading `+` (43) with at least one digit after it, otherwise all characters
must be hex digits (at least one), accumulating with a `u16` overflow
check. -/
def fromStrRadix16U16 (cs : List Nat) : Option Nat :=
  match cs with
  | [] => none
  | c :: rest =>
    if c = 43 then
      if rest.isEmpty then none else rest.foldl hexAccum (some 0)
    else (c :: rest).foldl hexAccum (some 0)

/-- `fn parse_escape(&mut self, escape: u8)` (lib.rs:200), entered with the
cursor still on the escape byte; it first advances past it.  For `\u` the
source takes the 4-byte window `input[pos..pos+4]`, `unwrap`s
`from_utf8` on it (panic branch), parses it with `u16::from_str_radix`,
and validates the scalar with `char::from_u32` (a `u16` is invalid exactly
on the surrogate range `0xD800..=0xDFFF`). -/
def parseEscape (escape : Nat) (s0 : PState) : PRes Nat :=
  let s := s0.advance 1
  match escape with
  | 34 => .ok 34 s            -- '"'
  | 39 => .ok 39 s            -- '\''
  | 92 => .ok 92 s            -- '\\'
  | 47 => .ok 47 s            -- '/'
  | 98 => .ok 8 s             -- 'b'
  | 102 => .ok 12 s           -- 'f'
  | 110 => .ok 10 s           -- 'n'
  | 114 => .ok 13 s           -- 'r'
  | 116 => .ok 9 s            -- 't'
  | 117 =>                    -- 'u'
    if s.rest.length < 4 then .err (s.mkErr "Invalid unicode escape")
    else
      match utf8Decode (s.rest.take 4) with
      | none => .panic
      | some hexChars =>
        match fromStrRadix16U16 hexChars with
        | none => .err (s.mkErr "Invalid unicode escape")
        | some code =>
          let s' := s.advance 4
          if 55296 ≤ code && code ≤ 57343 then
            .err (s'.mkErr "Invalid unicode scalar value")
          else .ok code s'
  | _ => .err (s.mkErr "Unknown escape sequence")

/-- The loop body of `fn parse_quoted_string(&mut self)` (lib.rs:179),
entered after the opening quote, pushing one character per plain byte
(`result.push(ch as char)`) and one per escape.  Each iteration consumes at
least one byte, so the fuel supplied at the call site
(`rest.length + 1`) never runs out. -/
def parseQuotedLoop (quote : Nat) : Nat → List Nat → PState → PRes (List Nat)
  | 0, _, _ => .nofuel
  | fuel+1, acc, s =>
    match s.peek with
    | none => .err (s.mkErr "Unterminated string literal")
    | some ch =>
      if ch == quote then .ok acc (s.advance 1)
      else if ch == 92 then
        let s1 := s.advance 1
        match s1.peek with
        | none => .err (s1.mkErr "Invalid escape")
        | some esc => (parseEscape esc s1).bind fun c s2 =>
            parseQuotedLoop quote fuel (acc ++ [c]) s2
      else parseQuotedLoop quote fuel (acc ++ [ch]) (s.advance 1)

/-- `fn parse_quoted_string(&mut self)` (lib.rs:179): `peek().unwrap()`
(panic branch when at end), consume the quote, then run the loop. -/
def parseQuotedString (s : PState) : PRes (List Nat) :=
  match s.peek with
  | none => .panic
  | some quote => parseQuotedLoop quote (s.rest.length + 1) [] (s.advance 1)

/-- `fn parse_string_like(&mut self)` (lib.rs:172). -/
def parseStringLike (s : PState) : PRes (List Nat) :=
  match s.peek with
  | some 39 => parseQuotedString s
  | some 34 => parseQuotedString s
  | _ => parseUnquotedString s

/-- A byte of the maximal numeric run `[+-.eE0-9]` (lib.rs:249). -/
def isNumByte (b : Nat) : Bool :=
  b == 43 || b == 45 || b == 46 || b == 101 || b == 69 || (48 ≤ b && b ≤ 57)

/-- An ASCII decimal digit byte. -/
def isDigit (b : Nat) : Bool := 48 ≤ b && b ≤ 57

/-- Value of a digit run, most significant first. -/
def digitsVal (ds : List Nat) : Nat := ds.foldl (fun acc d => acc * 10 + (d - 48)) 0

/-- `<f64 as FromStr>::from_str` on the captured numeric text, returning
the exact rational value of the literal: an optional sign, a mantissa
`digits [. digits?] | . digits` with at least one digit, and an optional
exponent `e|E sign? digits`.  (The `inf`/`nan` keyword forms cannot occur
in a `[+-.eE0-9]` run; rounding to the nearest double is abstracted, and
the overflow check happens at the use site against `f64Max`.) -/
def rustParseF64 (tok : List Nat) : Option ℚ :=
  let signRest : Bool × List Nat :=
    match tok with
    | 43 :: r => (false, r)
    | 45 :: r => (true, r)
    | r => (false, r)
  let neg := signRest.1
  let rest1 := signRest.2
  let intPart := rest1.takeWhile isDigit
  let rest2 := rest1.dropWhile isDigit
  let fracRest : List Nat × List Nat :=
    match rest2 with
    | 46 :: r => (r.takeWhile isDigit, r.dropWhile isDigit)
    | r => ([], r)
  let fracPart := fracRest.1
  let rest3 := if rest2.head? == some 46 then fracRest.2 else rest2
  if intPart.length + fracPart.length == 0 then none
  else
    let mantissa : Int :=
      (if neg then -1 else 1) * Int.ofNat (digitsVal (intPart ++ fracPart))
    match rest3 with
    | [] =>
      some (if fracPart.length == 0 then mkRat mantissa 1
            else mkRat mantissa (10 ^ fracPart.length))
    | e :: r4 =>
      if e == 101 || e == 69 then
        let expSignRest : Bool × List Nat :=
          match r4 with
          | 43 :: r => (false, r)
          | 45 :: r => (true, r)
          | r => (false, r)
        let expDigits := expSignRest.2
        if expDigits.isEmpty || !(expDigits.all isDigit) then none
        else
          let ev : Int :=
            (if expSignRest.1 then -1 else 1) * Int.ofNat (digitsVal expDigits)
          let shift : Int := ev - Int.ofNat fracPart.length
          if 0 ≤ shift then some (mkRat (mantissa * Int.ofNat (10 ^ shift.toNat)) 1)
          else some (mkRat mantissa (10 ^ (-shift).toNat))
      else none

/-- `fn parse_number(&mut self)` (lib.rs:246): capture the `[+-.eE0-9]`
run, require a delimiter/whitespace/end boundary, parse as `f64`
("Invalid number" on failure) and reject a non-finite result
("Non-finite number"; with exact-rational values this is the overflow
check against `f64Max`). -/
def parseNumber (s : PState) : PRes Value :=
  let tok := s.rest.takeWhile isNumByte
  let s' := s.advance tok.length
  let boundaryOk : Bool :=
    match s'.peek with
    | none => true
    | some b => isDelimiter b || isWs b
  if !boundaryOk then .err (s'.mkErr "Invalid number boundary")
  else
    match rustParseF64 tok with
    | none => .err (s'.mkErr "Invalid number")
    | some q =>
      if |q| < f64Max then .ok (.num (.finite q)) s'
      else .err (s'.mkErr "Non-finite number")

/-- `if year % 4 == 0 && (year % 100 != 0 || year % 400 == 0)`: the
proleptic Gregorian leap-year rule used by chrono's calendar. -/
def isLeapYear (y : Nat) : Bool := y % 4 == 0 && (y % 100 != 0 || y % 400 == 0)

/-- Days in a month of the proleptic Gregorian calendar. -/
def daysInMonth (y m : Nat) : Nat :=
  if m == 2 then (if isLeapYear y then 29 else 28)
  else if m == 4 || m == 6 || m == 9 || m == 11 then 30
  else 31

/-- Read exactly `k` decimal digits from the front of a code-point list,
returning their value and the remainder. -/
def splitDigits (k : Nat) (cs : List Nat) : Option (Nat × List Nat) :=
  let ds := cs.take k
  if ds.length = k ∧ ds.all isDigit then some (digitsVal ds, cs.drop k)
  else none

/-- Require the byte `b` at the front, returning the remainder. -/
def expectByte (b : Nat) : List Nat → Option (List Nat)
  | c :: rest => if c = b then some rest else none
  | [] => none

/-- Modelled from the spec: `chrono::NaiveDateTime::parse_from_str` with
the fixed pattern `%Y-%m-%d/%H:%M:%S.%3f` applied to a 23-character
window — "attempt to match the fixed 23-character pattern
`YYYY-MM-DD/HH:MM:SS.mmm`" (spec §4.2).  chrono itself is an external
crate, so the match is modelled positionally: four year digits, `-`, two
month digits, `-`, two day digits, `/`, two hour digits, `:`, two minute
digits, `:`, two second digits, `.`, three millisecond digits, with
calendar validation (leap-second inputs with second = 60 are outside the
model). -/
def parseDate23 (cs : List Nat) : Option SDate :=
  (splitDigits 4 cs).bind fun yr =>
  (expectByte 45 yr.2).bind fun r2 =>
  (splitDigits 2 r2).bind fun mo =>
  (expectByte 45 mo.2).bind fun r4 =>
  (splitDigits 2 r4).bind fun da =>
  (expectByte 47 da.2).bind fun r6 =>
  (splitDigits 2 r6).bind fun hh =>
  (expectByte 58 hh.2).bind fun r8 =>
  (splitDigits 2 r8).bind fun mi =>
  (expectByte 58 mi.2).bind fun r10 =>
  (splitDigits 2 r10).bind fun ss =>
  (expectByte 46 ss.2).bind fun r12 =>
  (splitDigits 3 r12).bind fun ms =>
  if ms.2.isEmpty then
    if 1 ≤ mo.1 ∧ mo.1 ≤ 12 ∧ 1 ≤ da.1 ∧ da.1 ≤ daysInMonth yr.1 mo.1 ∧
        hh.1 ≤ 23 ∧ mi.1 ≤ 59 ∧ ss.1 ≤ 59 then
      some ⟨yr.1, mo.1, da.1, hh.1, mi.1, ss.1, ms.1⟩
    else none
  else none

/-- `fn try_parse_datetime(&mut self)` (lib.rs:271): give up without
consuming if fewer than 23 bytes remain; `unwrap` `from_utf8` on the
23-byte window (panic branch); on a pattern match, accept only when the
byte after the window (if any) is a delimiter or whitespace, consuming the
23 bytes. -/
def tryParseDatetime (s : PState) : PRes (Option SDate) :=
  if s.rest.length < 23 then .ok none s
  else
    match utf8Decode (s.rest.take 23) with
    | none => .panic
    | some cs =>
      match parseDate23 cs with
      | none => .ok none s
      | some d =>
        match (s.rest.drop 23).head? with
        | some b =>
          if !(isDelimiter b || isWs b) then .ok none s
          else .ok (some d) (s.advance 23)
        | none => .ok (some d) (s.advance 23)

/-- `fn match_keyword(&mut self, keyword)` (lib.rs:290): the keyword bytes
must be a prefix of the remaining input and be followed by end-of-input, a
delimiter, or whitespace; only then is the cursor advanced. -/
def matchKeyword (kw : List Nat) (s : PState) : Option PState :=
  if kw.isPrefixOf s.rest then
    match (s.rest.drop kw.length).head? with
    | none => some (s.advance kw.length)
    | some b =>
      if isDelimiter b || isWs b then some (s.advance kw.length) else none
  else none

/-- The `loop` of `parse_object` (lib.rs:120): skip whitespace, parse a
key, require `:`, parse a value, `map.insert`, then `,` to continue or `)`
to finish.  `pv` is `parse_value` at the enclosing nesting budget; the
`iter` fuel bounds the loop iterations (each consumes at least one byte,
and the call site passes `rest.length + 1`). -/
def parseObjectLoop (pv : PState → PRes Value) :
    Nat → List (List Nat × Value) → PState → PRes Value
  | 0, _, _ => .nofuel
  | iter+1, map, s0 =>
    let s := s0.skipWs
    (parseStringLike s).bind fun key s1 =>
      let s2 := s1.skipWs
      if s2.peek != some 58 then .err (s2.mkErr "Expected ':' after key")
      else
        (pv (s2.advance 1)).bind fun v s3 =>
          let map' := mapInsert key v map
          let s4 := s3.skipWs
          match s4.peek with
          | some 44 => parseObjectLoop pv iter map' (s4.advance 1)
          | some 41 => .ok (.obj map') (s4.advance 1)
          | _ => .err (s4.mkErr "Expected ',' or ')'")

/-- `fn parse_object(&mut self)` (lib.rs:112): consume `(`, skip
whitespace, return the empty object on `)`, else run the entry loop. -/
def parseObject (pv : PState → PRes Value) (s0 : PState) : PRes Value :=
  let s1 := (s0.advance 1).skipWs
  if s1.peek == some 41 then .ok (.obj []) (s1.advance 1)
  else parseObjectLoop pv (s1.rest.length + 1) [] s1

/-- The `loop` of `parse_array` (lib.rs:154): parse a value, push it, then
`|` to continue or `]` to finish. -/
def parseArrayLoop (pv : PState → PRes Value) :
    Nat → List Value → PState → PRes Value
  | 0, _, _ => .nofuel
  | iter+1, items, s0 =>
    (pv s0).bind fun v s1 =>
      let items' := items ++ [v]
      let s2 := s1.skipWs
      match s2.peek with
      | some 124 => parseArrayLoop pv iter items' (s2.advance 1)
      | some 93 => .ok (.arr items') (s2.advance 1)
      | _ => .err (s2.mkErr "Expected '|' or ']'")

/-- `fn parse_array(&mut self)` (lib.rs:146): consume `[`, skip
whitespace, return the empty array on `]`, else run the element loop. -/
def parseArray (pv : PState → PRes Value) (s0 : PState) : PRes Value :=
  let s1 := (s0.advance 1).skipWs
  if s1.peek == some 93 then .ok (.arr []) (s1.advance 1)
  else parseArrayLoop pv (s1.rest.length + 1) [] s1

/-- `fn parse_value(&mut self)` (lib.rs:84): skip whitespace and dispatch
on the first byte: `(` object, `[` array, quote → quoted string, digit or
`-` → datetime attempt then number, otherwise the keywords `true`,
`false`, `null` (in that order) and finally an unquoted string.  The fuel
decreases at each nested `parse_value`; the entry point supplies more fuel
than any input can consume. -/
def parseValue : Nat → PState → PRes Value
  | 0, _ => .nofuel
  | fuel+1, s0 =>
    let s := s0.skipWs
    match s.peek with
    | none => .err (s.mkErr "Unexpected end of input")
    | some ch =>
      if ch == 40 then parseObject (parseValue fuel) s
      else if ch == 91 then parseArray (parseValue fuel) s
      else if ch == 39 || ch == 34 then
        (parseQuotedString s).bind fun cs s' => .ok (.str cs) s'
      else if ch == 45 || (48 ≤ ch && ch ≤ 57) then
        (tryParseDatetime s).bind fun od s' =>
          match od with
          | some d => .ok (.date d) s'
          | none => parseNumber s'
      else
        match matchKeyword [116, 114, 117, 101] s with   -- "true"
        | some s' => .ok (.bool true) s'
        | none =>
          match matchKeyword [102, 97, 108, 115, 101] s with  -- "false"
          | some s' => .ok (.bool false) s'
          | none =>
            match matchKeyword [110, 117, 108, 108] s with    -- "null"
            | some s' => .ok (.null) s'
            | none =>
              (parseUnquotedString s).bind fun cs s' => .ok (.str cs) s'

/-- `pub fn parse(input: &str)` (lib.rs:29): skip leading whitespace,
parse one value, skip trailing whitespace, and require end of input. -/
def parse (input : List Nat) : PRes Value :=
  let s := (⟨0, input⟩ : PState).skipWs
  (parseValue (input.length + 1) s).bind fun v s' =>
    let s2 := s'.skipWs
    if !s2.rest.isEmpty then .err (s2.mkErr "Unexpected trailing content")
    else .ok v s2

/-- Decimal digits of a natural number, most significant first (`0` gives
`"0"`); the fuel argument is an upper bound on the digit count. -/
def natDigitsAux : Nat → Nat → List Nat
  | 0, _ => []
  | _+1, 0 => []
  | fuel+1, n+1 => natDigitsAux fuel ((n + 1) / 10) ++ [48 + (n + 1) % 10]

/-- Decimal rendering of a natural number, as `u64`-style formatting. -/
def natDigits (n : Nat) : List Nat := if n = 0 then [48] else natDigitsAux n n

/-- Multiplicity of the prime `p` in `n` (fuel-bounded; `powCount p n n`
is exact). -/
def powCount (p : Nat) : Nat → Nat → Nat
  | 0, _ => 0
  | fuel+1, n => if n % p = 0 ∧ 2 ≤ n then powCount p fuel (n / p) + 1 else 0

/-- The `Value::Number` arm of `format_value` (lib.rs:327): an integral
double is printed as an integer (`format!("{:.0}", num)`), a non-integral
finite one with `num.to_string()` — modelled as the exact terminating
decimal expansion, which is what the shortest round-tripping decimal
denotes in the exact-rational model (every finite double has a power-of-two
denominator, so the expansion terminates; the final branch is unreachable
for such values).  The non-finite values print as Rust `Display` does. -/
def formatF64 : F64 → List Nat
  | .nan => [78, 97, 78]                                -- "NaN"
  | .inf negative => if negative then [45, 105, 110, 102] else [105, 110, 102]
  | .finite q =>
    if q.den = 1 then
      (if q.num < 0 then [45] else []) ++ natDigits q.num.natAbs
    else
      let t := max (powCount 2 q.den q.den) (powCount 5 q.den q.den)
      if 10 ^ t % q.den = 0 then
        let m := q.num.natAbs * (10 ^ t / q.den)
        let ds := natDigits m
        let ds' := if ds.length < t + 1 then
            List.replicate (t + 1 - ds.length) 48 ++ ds
          else ds
        (if q.num < 0 then [45] else []) ++
          ds'.take (ds'.length - t) ++ [46] ++ ds'.drop (ds'.length - t)
      else [78, 97, 78]

/-- The per-character effect of the escape chain in `fn format_string`
(lib.rs:363): backslash, single quote, LF, CR and tab get a backslash;
everything else is kept verbatim. -/
def escapeChar (c : Nat) : List Nat :=
  if c == 92 then [92, 92]
  else if c == 39 then [92, 39]
  else if c == 10 then [92, 110]
  else if c == 13 then [92, 114]
  else if c == 9 then [92, 116]
  else [c]

/-- `fn format_string(value: &str)` (lib.rs:363): escape and wrap in
single quotes (code-point level; the result is UTF-8 encoded where it is
emitted). -/
def formatString (s : List Nat) : List Nat :=
  [39] ++ (s.map escapeChar).flatten ++ [39]

/-- The quoting test of `fn format_key(key: &str)` (lib.rs:355): empty, or
containing a delimiter, a quote of either kind, or Unicode whitespace. -/
def keyNeedsQuote (s : List Nat) : Bool :=
  s.isEmpty || s.any (fun c => isDelimiter c || c == 34 || c == 39 || isUnicodeWs c)

/-- `fn format_key(key: &str)` (lib.rs:355). -/
def formatKey (s : List Nat) : List Nat :=
  if keyNeedsQuote s then formatString s else s

/-- Left-pad a digit list with zeros to width `w` (chrono's zero-padded
numeric formatting). -/
def padZeros (w : Nat) (ds : List Nat) : List Nat :=
  List.replicate (w - ds.length) 48 ++ ds

/-- The `Value::Date` arm of `format_value` (lib.rs:351):
`dt.format("%Y-%m-%d/%H:%M:%S.%3f")`. -/
def formatDate (d : SDate) : List Nat :=
  padZeros 4 (natDigits d.year) ++ [45] ++ padZeros 2 (natDigits d.month) ++
  [45] ++ padZeros 2 (natDigits d.day) ++ [47] ++ padZeros 2 (natDigits d.hour) ++
  [58] ++ padZeros 2 (natDigits d.minute) ++ [58] ++ padZeros 2 (natDigits d.second) ++
  [46] ++ padZeros 3 (natDigits d.milli)

/-- `Vec::join` on byte chunks. -/
def joinSep (sep : List Nat) : List (List Nat) → List Nat
  | [] => []
  | [x] => x
  | x :: y :: rest => x ++ sep ++ joinSep sep (y :: rest)

/-- `fn format_value(value: &Value)` (lib.rs:322), producing the UTF-8
bytes of the output `String`.  Arrays join their encoded elements with
`" | "`, objects join `key: value` pairs (in the `BTreeMap`'s ascending
key order, i.e. the list order of `Value.obj`) with `", "`.  The fuel
drives the recursion; `stringify` supplies a sufficient bound. -/
def formatValueF : Nat → Value → List Nat
  | 0, _ => []
  | fuel+1, v =>
    match v with
    | .null => [110, 117, 108, 108]
    | .bool true => [116, 114, 117, 101]
    | .bool false => [102, 97, 108, 115, 101]
    | .num x => formatF64 x
    | .str s => utf8EncodeStr (formatString s)
    | .arr items => [91] ++ joinSep [32, 124, 32] (items.map (formatValueF fuel)) ++ [93]
    | .obj entries =>
      [40] ++ joinSep [44, 32] (entries.map (fun kv =>
        utf8EncodeStr (formatKey kv.1) ++ [58, 32] ++ formatValueF fuel kv.2)) ++ [41]
    | .date d => formatDate d

/-- Recursion depth bound of a `Value` (only used as fuel for
`formatValueF`). -/
def vfuel : Value → Nat
  | .null => 1
  | .bool _ => 1
  | .num _ => 1
  | .str _ => 1
  | .date _ => 1
  | .arr items => 1 + (items.attach.map fun x => vfuel x.1).sum
  | .obj entries => 1 + (entries.attach.map fun x => vfuel x.1.2).sum
termination_by v => sizeOf v
decreasing_by
  · have h := List.sizeOf_lt_of_mem x.2
    simp only [Value.arr.sizeOf_spec]
    omega
  · obtain ⟨⟨k, v⟩, hm⟩ := x
    have h := List.sizeOf_lt_of_mem hm
    simp only [Value.obj.sizeOf_spec, Prod.mk.sizeOf_spec] at h ⊢
    omega

/-- `pub fn stringify(value: &Value)` (lib.rs:40), as UTF-8 bytes. -/
def stringify (v : Value) : List Nat := formatValueF (vfuel v) v

/-! ## Basic facts about the order on keys and `mapInsert` -/

theorem keyLtB_irrefl : ∀ a, keyLtB a a = false
  | [] => rfl
  | x :: xs => by simp [keyLtB, keyLtB_irrefl xs]

theorem mapInsert_overwrite (k : List Nat) (v1 v2 : Value)
    (m : List (List Nat × Value)) :
    mapInsert k v2 (mapInsert k v1 m) = mapInsert k v2 m := by
  induction m with
  | nil => simp [mapInsert, keyLtB_irrefl]
  | cons hd tl ih =>
    obtain ⟨k', v'⟩ := hd
    by_cases h1 : keyLtB k k' = true
    · simp [mapInsert, h1, keyLtB_irrefl]
    · by_cases h2 : k = k'
      · subst h2
        simp [mapInsert, h1, keyLtB_irrefl]
      · simp [mapInsert, h1, h2, ih]

/-- C5: when an object being decoded repeats a key, the later entry
overwrites the earlier one (`map.insert` replaces the value at an existing
key), and in particular `decode("(a:1,a:2)")` succeeds with the single
entry `a ↦ Number(2)` (key `a` = code point 97). -/
theorem claim5_duplicate_key_overwrites :
    (∀ (k : List Nat) (v1 v2 : Value) (m : List (List Nat × Value)),
      mapInsert k v2 (mapInsert k v1 m) = mapInsert k v2 m) ∧
    parse (strUtf8 "(a:1,a:2)") =
      .ok (.obj [([97], .num (.finite (mkRat 2 1)))]) ⟨9, []⟩ :=
  ⟨mapInsert_overwrite, rfl⟩

/-- C10: a separator must be followed by another entry: after `,` in an
object the decoder demands a key and after `|` in an array it demands a
value, so `decode("(a:1,)")` and `decode("[1|]")` fail with the
"Empty string value" error at the closing bracket's byte offset instead of
yielding one-entry containers. -/
theorem claim10_trailing_separator_rejected :
    parse (strUtf8 "(a:1,)") = .err ⟨"Empty string value", 5⟩ ∧
    parse (strUtf8 "[1|]") = .err ⟨"Empty string value", 3⟩ :=
  ⟨rfl, rfl⟩

/-- C2 (code bug evidence): on the valid UTF-8 input `'\u123é'` the
decoder reaches `parse_escape`'s `\u` branch with the 4-byte window
`[49, 50, 51, 195]`, which splits the two-byte encoding of `é`; the
source calls `std::str::from_utf8(hex).unwrap()` on it (lib.rs:219) and
panics instead of returning a `{message, position}` error. -/
theorem claim2_panic_on_split_utf8_window :
    parse (strUtf8 "'\\u123é'") = .panic := rfl

/-! ## Keyword boundary check -/

theorem isPrefixOf_append : ∀ (kw rest : List Nat), kw.isPrefixOf (kw ++ rest) = true
  | [], _ => by simp [List.isPrefixOf]
  | x :: xs, rest => by simp [List.isPrefixOf, isPrefixOf_append xs rest]

/-- C6: `match_keyword` recognizes a keyword only when the byte after it is
a delimiter or whitespace or the input ends there — whenever the keyword
bytes are followed by any other byte the match is rejected (first
conjunct), and consequently `decode("nullish")` falls through to the
unquoted-string rule and yields the string `nullish` (second conjunct). -/
theorem claim6_keyword_boundary :
    (∀ (kw : List Nat) (n b : Nat) (rest : List Nat),
      (isDelimiter b || isWs b) = false →
      matchKeyword kw ⟨n, kw ++ b :: rest⟩ = none) ∧
    parse (strUtf8 "nullish") =
      .ok (.str [110, 117, 108, 108, 105, 115, 104]) ⟨7, []⟩ := by
  refine ⟨fun kw n b rest hb => ?_, rfl⟩
  simp [matchKeyword, isPrefixOf_append, List.drop_left, hb]

/-- Witness for C6: the boundary hypothesis and conclusion hold concretely
for the keyword `null` followed by the byte `i` (105). -/
theorem claim6_keyword_boundary_witness :
    matchKeyword [110, 117, 108, 108] ⟨0, [110, 117, 108, 108, 105]⟩ = none :=
  claim6_keyword_boundary.1 [110, 117, 108, 108] 0 105 [] (by decide)

/-! ## UTF-8 and hex-digit facts -/

theorem utf8DecodeF_nil (fuel : Nat) : utf8DecodeF fuel [] = some [] := by
  cases fuel <;> rfl

theorem utf8DecodeF_ascii : ∀ (fuel : Nat) (l : List Nat), (∀ b ∈ l, b < 128) →
    l.length ≤ fuel → utf8DecodeF fuel l = some l
  | fuel, [], _, _ => utf8DecodeF_nil fuel
  | fuel+1, b :: rest, h, hf => by
    have hb : b < 128 := h b (by simp)
    have ih := utf8DecodeF_ascii fuel rest (fun x hx => h x (by simp [hx]))
      (by simpa using hf)
    simp [utf8DecodeF, utf8Step, hb, ih]

/-- ASCII byte lists decode as themselves. -/
theorem utf8Decode_ascii (l : List Nat) (h : ∀ b ∈ l, b < 128) :
    utf8Decode l = some l :=
  utf8DecodeF_ascii l.length l h le_rfl

theorem hexVal_lt {c d : Nat} (h : hexVal c = some d) : d < 16 := by
  unfold hexVal at h
  split_ifs at h <;> simp_all <;> omega

theorem hexAccum_some {a d c : Nat} (h : hexVal c = some d) (ha : a ≤ 4095) :
    hexAccum (some a) c = some (a * 16 + d) := by
  have := hexVal_lt h
  simp only [hexAccum, h]
  rw [if_pos (by omega)]

theorem foldl_hexAccum_none (l : List Nat) : l.foldl hexAccum none = none := by
  induction l with
  | nil => rfl
  | cons c tl ih => simp [List.foldl_cons, hexAccum, ih]

theorem foldl_hexAccum_isSome :
    ∀ (l : List Nat) (a : Nat), (a + 1) * 16 ^ l.length ≤ 65536 →
      ((l.foldl hexAccum (some a)).isSome = true ↔ ∀ c ∈ l, (hexVal c).isSome = true) := by
  intro l
  induction l with
  | nil => simp
  | cons hd tl ih =>
    intro a ha
    rcases hc : hexVal hd with _ | d
    · simp [List.foldl_cons, hexAccum, hc, foldl_hexAccum_none]
    · have hd16 := hexVal_lt hc
      have h16 : (16 : Nat) ≤ 16 ^ (tl.length + 1) :=
        Nat.le_self_pow (by omega) 16
      have ha' : a ≤ 4095 := by
        have hm : (a + 1) * 16 ≤ (a + 1) * 16 ^ (tl.length + 1) :=
          Nat.mul_le_mul_left _ h16
        simp only [List.length_cons] at ha
        omega
      rw [List.foldl_cons, hexAccum_some hc ha']
      have hb : (a * 16 + d + 1) * 16 ^ tl.length ≤ 65536 := by
        have h1 : a * 16 + d + 1 ≤ (a + 1) * 16 := by omega
        have h2 : (a * 16 + d + 1) * 16 ^ tl.length ≤ (a + 1) * 16 * 16 ^ tl.length :=
          Nat.mul_le_mul_right _ h1
        have h3 : (a + 1) * 16 * 16 ^ tl.length = (a + 1) * 16 ^ (tl.length + 1) := by
          ring
        simp only [List.length_cons] at ha
        omega
      rw [ih _ hb]
      simp [hc]

/-- C3 (amended): behaviour of the quoted-string escape `\uXXXX`.
(1) With fewer than four bytes after the `u`, decoding fails with
"Invalid unicode escape".  (2) With an ASCII 4-byte window the escape
yields exactly `u16::from_str_radix`'s verdict: the window's value as a
code unit when it parses and is not a surrogate, the invalid-scalar error
on a surrogate, and the invalid-escape error when it does not parse.
(3) `from_str_radix` accepts the window exactly when all four characters
are hex digits or the window is `+` followed by three hex digits (the
leading-`+` case is the correction to the claim). -/
theorem claim3_unicode_escape :
    (∀ (n : Nat) (w : List Nat), w.length < 4 →
      parseEscape 117 ⟨n, 117 :: w⟩ = .err ⟨"Invalid unicode escape", n + 1⟩) ∧
    (∀ (n b1 b2 b3 b4 : Nat) (rest : List Nat),
      b1 < 128 → b2 < 128 → b3 < 128 → b4 < 128 →
      parseEscape 117 ⟨n, 117 :: b1 :: b2 :: b3 :: b4 :: rest⟩ =
        match fromStrRadix16U16 [b1, b2, b3, b4] with
        | none => .err ⟨"Invalid unicode escape", n + 1⟩
        | some code =>
          if 55296 ≤ code ∧ code ≤ 57343 then
            .err ⟨"Invalid unicode scalar value", n + 5⟩
          else .ok code ⟨n + 5, rest⟩) ∧
    (∀ b1 b2 b3 b4 : Nat,
      (fromStrRadix16U16 [b1, b2, b3, b4]).isSome = true ↔
        (((hexVal b1).isSome = true ∧ (hexVal b2).isSome = true ∧
            (hexVal b3).isSome = true ∧ (hexVal b4).isSome = true) ∨
          (b1 = 43 ∧ (hexVal b2).isSome = true ∧ (hexVal b3).isSome = true ∧
            (hexVal b4).isSome = true))) := by
  refine ⟨fun n w hw => ?_, fun n b1 b2 b3 b4 rest h1 h2 h3 h4 => ?_,
    fun b1 b2 b3 b4 => ?_⟩
  · simp [parseEscape, PState.advance, PState.mkErr, hw]
  · have htake : (b1 :: b2 :: b3 :: b4 :: rest).take 4 = [b1, b2, b3, b4] := rfl
    have hdec : utf8Decode [b1, b2, b3, b4] = some [b1, b2, b3, b4] :=
      utf8Decode_ascii _ (by
        intro b hb
        simp at hb
        rcases hb with rfl | rfl | rfl | rfl <;> assumption)
    simp only [parseEscape, PState.advance, List.drop_succ_cons, List.drop_zero,
      List.length_cons, htake, hdec, PState.mkErr]
    rw [if_neg (by omega)]
    rcases hf : fromStrRadix16U16 [b1, b2, b3, b4] with _ | code
    · rfl
    · by_cases hs : 55296 ≤ code ∧ code ≤ 57343 <;> simp [hs]
  · simp only [fromStrRadix16U16]
    by_cases hb : b1 = 43
    · subst hb
      have h43 : hexVal 43 = none := by decide
      rw [if_pos rfl]
      simp only [List.isEmpty_cons, Bool.false_eq_true, if_false]
      rw [foldl_hexAccum_isSome [b2, b3, b4] 0 (by norm_num)]
      simp [h43]
    · rw [if_neg hb]
      rw [foldl_hexAccum_isSome [b1, b2, b3, b4] 0 (by norm_num)]
      simp [hb]

/-- Counterexample to C3 as stated: in `'\u+041'` the escape window
`+041` is not four hex digits (`+` = 43 is no hex digit), yet decoding
succeeds and yields the string `A` (code point 65), because
`u16::from_str_radix` accepts a leading `+`. -/
theorem claim3_counterexample :
    parse (strUtf8 "'\\u+041'") = .ok (.str [65]) ⟨8, []⟩ ∧ hexVal 43 = none :=
  ⟨rfl, rfl⟩

/-- Witness for C3: the escape behaviour at the concrete window `0041`
(four hex digits, scalar 65). -/
theorem claim3_unicode_escape_witness :
    parseEscape 117 ⟨0, [117, 48, 48, 52, 49]⟩ = .ok 65 ⟨5, []⟩ := by
  rw [claim3_unicode_escape.2.1 0 48 48 52 49 [] (by decide) (by decide)
    (by decide) (by decide)]
  rfl

theorem parseQuotedLoop_plain (quote : Nat) :
    ∀ (content : List Nat) (fuel : Nat) (acc : List Nat) (n : Nat) (rest : List Nat),
      content.length < fuel →
      (∀ b ∈ content, b ≠ quote ∧ b ≠ 92) →
      parseQuotedLoop quote fuel acc ⟨n, content ++ quote :: rest⟩ =
        .ok (acc ++ content) ⟨n + (content.length + 1), rest⟩
  | [], fuel+1, acc, n, rest, _, _ => by
    simp [parseQuotedLoop, PState.peek, PState.advance]
  | b :: content', fuel+1, acc, n, rest, hf, hb => by
    have hbq : (b == quote) = false := by
      simpa using (hb b (by simp)).1
    have hbs : (b == 92) = false := by
      simpa using (hb b (by simp)).2
    have ih := parseQuotedLoop_plain quote content' fuel (acc ++ [b]) (n + 1) rest
      (by simpa using hf) (fun x hx => hb x (by simp [hx]))
    simp only [parseQuotedLoop, PState.peek, List.cons_append, List.head?_cons,
      hbq, hbs, Bool.false_eq_true, if_false, PState.advance, List.drop_succ_cons,
      List.drop_zero]
    rw [ih]
    simp [List.append_assoc]
    omega

/-- C8 (amended): in a quoted string every plain (non-escape) content byte
becomes exactly one character of the decoded string, with code point equal
to the byte value — a token of `n` plain content bytes decodes to exactly
`n` characters (first conjunct).  For unquoted tokens the source instead
decodes the token bytes as UTF-8 and trims Unicode whitespace, so the
byte-per-character reading fails there: the two-byte unquoted token
`é` = [195, 169] decodes to the single code point 233 (second conjunct,
the counterexample input evaluated). -/
theorem claim8_quoted_byte_per_char :
    (∀ (n quote : Nat) (content rest : List Nat),
      (∀ b ∈ content, b ≠ quote ∧ b ≠ 92) →
      parseQuotedString ⟨n, quote :: (content ++ quote :: rest)⟩ =
        .ok content ⟨n + (content.length + 2), rest⟩) ∧
    parse [195, 169] = .ok (.str [233]) ⟨2, []⟩ := by
  refine ⟨fun n quote content rest hb => ?_, rfl⟩
  simp only [parseQuotedString, PState.peek, List.head?_cons, PState.advance,
    List.drop_succ_cons, List.drop_zero, List.length_cons, List.length_append]
  rw [parseQuotedLoop_plain quote content _ [] (n + 1) rest (by omega) hb]
  simp
  omega

/-- Witness for C8: the quoted token `'ab'` decodes to the two characters
`a b`, one per byte. -/
theorem claim8_quoted_byte_per_char_witness :
    parseQuotedString ⟨0, [39, 97, 98, 39]⟩ = .ok [97, 98] ⟨4, []⟩ := by
  have h := claim8_quoted_byte_per_char.1 0 39 [97, 98] [] (by decide)
  simpa using h

/-- Counterexample to C8 as stated: the unquoted token `é` has two content
bytes but decodes to a one-character string (the decoder UTF-8-decodes
unquoted tokens instead of mapping bytes to characters). -/
theorem claim8_counterexample :
    parse [195, 169] = .ok (.str [233]) ⟨2, []⟩ ∧
      ([233] : List Nat).length ≠ ([195, 169] : List Nat).length :=
  ⟨rfl, by decide⟩

/-! ## The object key order -/

theorem keyLtB_cons (x y : Nat) (xs ys : List Nat) :
    keyLtB (x :: xs) (y :: ys) = true ↔ (x < y ∨ (x = y ∧ keyLtB xs ys = true)) := by
  simp only [keyLtB]
  by_cases h : x < y
  · simp [h]
  · by_cases h2 : x = y <;> simp [h, h2]

theorem keyLtB_trans : ∀ a b c : List Nat, keyLtB a b = true → keyLtB b c = true →
    keyLtB a c = true
  | [], [], _, h, _ => by simp [keyLtB] at h
  | [], _ :: _, [], _, h => by simp [keyLtB] at h
  | [], _ :: _, _ :: _, _, _ => by simp [keyLtB]
  | _ :: _, [], _, h, _ => by simp [keyLtB] at h
  | _ :: _, _ :: _, [], _, h => by simp [keyLtB] at h
  | x :: xs, y :: ys, z :: zs, h1, h2 => by
    rw [keyLtB_cons] at h1 h2 ⊢
    rcases h1 with h1 | ⟨rfl, h1⟩
    · rcases h2 with h2 | ⟨rfl, h2⟩
      · exact Or.inl (Nat.lt_trans h1 h2)
      · exact Or.inl h1
    · rcases h2 with h2 | ⟨rfl, h2⟩
      · exact Or.inl h2
      · exact Or.inr ⟨rfl, keyLtB_trans _ _ _ h1 h2⟩

theorem keyLtB_connex : ∀ a b : List Nat, a ≠ b →
    keyLtB a b = true ∨ keyLtB b a = true
  | [], [], h => absurd rfl h
  | [], _ :: _, _ => Or.inl (by simp [keyLtB])
  | _ :: _, [], _ => Or.inr (by simp [keyLtB])
  | x :: xs, y :: ys, h => by
    rcases Nat.lt_trichotomy x y with hxy | rfl | hxy
    · exact Or.inl ((keyLtB_cons _ _ _ _).mpr (Or.inl hxy))
    · have hne : xs ≠ ys := fun he => h (by rw [he])
      rcases keyLtB_connex xs ys hne with h1 | h1
      · exact Or.inl ((keyLtB_cons _ _ _ _).mpr (Or.inr ⟨rfl, h1⟩))
      · exact Or.inr ((keyLtB_cons _ _ _ _).mpr (Or.inr ⟨rfl, h1⟩))
    · exact Or.inr ((keyLtB_cons _ _ _ _).mpr (Or.inl hxy))

/-- The strict ascending-key invariant of a `BTreeMap`'s iteration list. -/
def objSorted (m : List (List Nat × Value)) : Prop :=
  List.Chain' (fun a b => keyLtB a.1 b.1 = true) m

theorem mapInsert_head? (k : List Nat) (v : Value) :
    ∀ m, (mapInsert k v m).head? = some (k, v) ∨
      ((mapInsert k v m).head? = m.head? ∧ m ≠ [])
  | [] => Or.inl rfl
  | (k2, v2) :: tl => by
    simp only [mapInsert]
    split_ifs with h1 h2
    · exact Or.inl rfl
    · exact Or.inl rfl
    · exact Or.inr ⟨rfl, by simp⟩

theorem mapInsert_sorted (k : List Nat) (v : Value) :
    ∀ m, objSorted m → objSorted (mapInsert k v m)
  | [], _ => by simp [mapInsert, objSorted]
  | (k', v') :: tl, hm => by
    by_cases h1 : keyLtB k k' = true
    · simp only [mapInsert, h1, if_true]
      exact List.chain'_cons.mpr ⟨h1, hm⟩
    · obtain ⟨hhead, htl⟩ := List.chain'_cons'.mp hm
      by_cases h2 : k = k'
      · subst h2
        simp only [mapInsert, h1, if_false, if_pos rfl]
        exact List.chain'_cons'.mpr ⟨hhead, htl⟩
      · have hk'k : keyLtB k' k = true := by
          rcases keyLtB_connex k k' h2 with hx | hx
          · exact absurd hx h1
          · exact hx
        simp only [mapInsert, h1, h2, if_false]
        refine List.chain'_cons'.mpr ⟨?_, mapInsert_sorted k v tl htl⟩
        intro b hb
        rcases mapInsert_head? k v tl with hh | ⟨hh, _⟩
        · rw [hh] at hb
          simp at hb
          subst hb
          exact hk'k
        · rw [hh] at hb
          exact hhead b hb

theorem foldl_mapInsert_sorted (inserts : List (List Nat × Value)) :
    ∀ m, objSorted m →
      objSorted (inserts.foldl (fun acc kv => mapInsert kv.1 kv.2 acc) m) := by
  induction inserts with
  | nil => exact fun m hm => hm
  | cons kv tl ih => exact fun m hm => ih _ (mapInsert_sorted kv.1 kv.2 m hm)

/-- C4: the container backing `Object` is key-ordered, not merely
insertion-ordered — inserting any sequence of key/value pairs in any order
yields a strictly ascending-key list (first conjunct), and the encoder
renders entries in that ascending order, so
`decode("(b: 'x', a: 'y')")` yields the object with `a` before `b` and
encodes back to `(a: 'y', b: 'x')` (remaining conjuncts). -/
theorem claim4_encoder_ascending_keys :
    (∀ (inserts : List (List Nat × Value)),
      objSorted (inserts.foldl (fun acc kv => mapInsert kv.1 kv.2 acc) [])) ∧
    parse (strUtf8 "(b: 'x', a: 'y')") =
      .ok (.obj [([97], .str [121]), ([98], .str [120])]) ⟨16, []⟩ ∧
    stringify (.obj [([97], .str [121]), ([98], .str [120])]) =
      strUtf8 "(a: 'y', b: 'x')" := by
  refine ⟨fun inserts => foldl_mapInsert_sorted inserts [] (by simp [objSorted]),
    rfl, ?_⟩
  have h : vfuel (.obj [([97], .str [121]), ([98], .str [120])]) = 3 := by
    simp [vfuel]
  rw [stringify, h]
  rfl
